import Mathlib

/-!
# Sword & Shield — verification of the session and round-resolution engine

Shallow embedding of the Node.js backend (`server.js`).  The JavaScript
`Map<username, PlayerData>` is modelled as an association list in insertion
order with distinct keys (a JS `Map` preserves insertion order and keys are
unique); JS numbers that carry scores, predictions and popularity values are
modelled as rationals (the engine retains full precision internally and all
arithmetic performed here is exact on decimal inputs); timestamps are natural
numbers of milliseconds.  Each socket event handler becomes a pure function
from the pre-state to the post-state together with the messages it emits to
the calling socket.
-/

namespace SwordShield

/-- A stored submission `{ x: int 1-10, z: number 0-100 }` (field names from
the source: `currentRoundSubmission = { x: parsedX, z: parsedZ }`). -/
structure Submission where
  x : ℤ
  z : ℚ
  deriving DecidableEq, Repr

/-- `PlayerData` exactly as laid out in section 4 of the source. -/
structure PlayerData where
  socketId : Option String
  username : String
  connected : Bool
  disconnectedAt : Option ℕ
  cumulativeScore : ℚ
  currentRoundSubmission : Option Submission
  deriving DecidableEq, Repr

/-- The four values of the `gameState` variable. -/
inductive Phase where
  | lobby
  | round_input
  | round_resolution
  | final_standings
  deriving DecidableEq, Repr

/-- The string each phase is written as in the source (used inside the
phase-guard error messages, which interpolate `gameState`). -/
def phaseStr : Phase → String
  | .lobby => "lobby"
  | .round_input => "round_input"
  | .round_resolution => "round_resolution"
  | .final_standings => "final_standings"

/-- One element of `lastRoundResults` as built by `resolveRound`. -/
structure RoundResult where
  username : String
  x : ℤ
  z : ℚ
  k : ℕ
  Y : ℚ
  baseScore : ℚ
  penalty : ℚ
  roundScore : ℚ
  deriving DecidableEq, Repr

/-- The mutable module-level state of the server: the `players` map (as an
insertion-ordered association list), `gameState`, `currentRound` and
`lastRoundResults`. -/
structure State where
  players : List (String × PlayerData)
  gameState : Phase
  currentRound : ℕ
  lastRoundResults : List RoundResult
  deriving DecidableEq, Repr

/-- `RECONNECT_GRACE_MS = 10 * 60 * 1000`. -/
def RECONNECT_GRACE_MS : ℕ := 10 * 60 * 1000

/-- `players.get(k)` on the association-list model: the value at the first
(and, keys being unique, only) entry with key `k`. -/
def mapGet {α : Type} : List (String × α) → String → Option α
  | [], _ => none
  | (k, v) :: rest, u => if k = u then some v else mapGet rest u

/-- In-place mutation of the `PlayerData` object stored under key `k`
(JS mutates the object through the reference held by the map, leaving its
position unchanged); entries under other keys are untouched. -/
def mapUpdate {α : Type} : List (String × α) → String → (α → α) →
    List (String × α)
  | [], _, _ => []
  | (k', v) :: rest, k, f =>
      if k' = k then (k', f v) :: mapUpdate rest k f
      else (k', v) :: mapUpdate rest k f

/-- The submitter list built at the top of `resolveRound`: every player whose
`currentRoundSubmission` is non-null, in map (= insertion) order. -/
def submitters (ps : List (String × PlayerData)) : List (String × PlayerData) :=
  ps.filter (fun e => e.2.currentRoundSubmission.isSome)

/-- `freqMap[x]`: how many submitters chose the value `x`. -/
def countChoice (subs : List (String × PlayerData)) (x : ℤ) : ℕ :=
  (subs.filter (fun e =>
    match e.2.currentRoundSubmission with
    | some sub => sub.x = x
    | none => false)).length

/-- The record pushed onto `lastRoundResults` for one submitter.  A submitter
always has a submission; the `getD` default is never read. -/
def mkResult (N : ℕ) (subs : List (String × PlayerData))
    (e : String × PlayerData) : RoundResult :=
  let sub := e.2.currentRoundSubmission.getD ⟨0, 0⟩
  let k := countChoice subs sub.x
  let Y : ℚ := ((k : ℚ) / (N : ℚ)) * 100
  let baseScore : ℚ := (sub.x : ℚ) * (1 - Y / 100)
  let penalty : ℚ := |Y - sub.z| / 10
  ⟨e.1, sub.x, sub.z, k, Y, baseScore, penalty, baseScore - penalty⟩

/-- `playerData.cumulativeScore += roundScore`, performed once per result
entry.  The source interleaves these mutations with building the result
array inside one `submitters.map`; since every mutation touches only the
mutated player's own running total, which no score computation reads,
building all results first and then folding the mutations is the same
function of the state. -/
def applyResults (ps : List (String × PlayerData)) (rs : List RoundResult) :
    List (String × PlayerData) :=
  rs.foldl
    (fun acc r =>
      mapUpdate acc r.username
        (fun d => { d with cumulativeScore := d.cumulativeScore + r.roundScore }))
    ps

/-- `resolveRound()`: returns the new `players` map and the new
`lastRoundResults`. -/
def resolveRound (ps : List (String × PlayerData)) :
    List (String × PlayerData) × List RoundResult :=
  let subs := submitters ps
  let N := subs.length
  if N = 0 then (ps, [])
  else
    let results := subs.map (mkResult N subs)
    (applyResults ps results, results)

/-- `clearSubmissions()`: null out every player's `currentRoundSubmission`. -/
def clearSubmissions (ps : List (String × PlayerData)) :
    List (String × PlayerData) :=
  ps.map (fun e => (e.1, { e.2 with currentRoundSubmission := none }))

/-- `resetGame()`: back to the lobby; every player keeps their entry but
loses score and pending submission. -/
def resetGame (s : State) : State :=
  { s with
    gameState := .lobby
    currentRound := 1
    lastRoundResults := []
    players := s.players.map
      (fun e => (e.1, { e.2 with cumulativeScore := 0, currentRoundSubmission := none })) }

/-- JS `String.prototype.trim` on the underlying character sequence: strip
whitespace from both ends. -/
def trimData (l : List Char) : List Char :=
  ((l.dropWhile Char.isWhitespace).reverse.dropWhile Char.isWhitespace).reverse

/-- `username.trim().substring(0, 20)` — the key under which a joining
player is stored. -/
def cleanName (raw : String) : String :=
  ⟨(trimData raw.data).take 20⟩

/-- The `join_lobby` handler.  `!username` is true in JS exactly when the
(string) payload is empty, so the guard rejects only the empty raw string;
payloads of non-string type are outside this model.  Returns the new state
and the `error_message` sent back to the caller, if any. -/
def join_lobby (raw : String) (sock : String) (s : State) :
    State × Option String :=
  if raw = "" then (s, some "A valid username is required.")
  else
    let name := cleanName raw
    match mapGet s.players name with
    | some _ =>
        ({ s with players := (mapUpdate s.players name
            (fun d => { d with socketId := some sock, connected := true,
                               disconnectedAt := none })) }, none)
    | none =>
        ({ s with players := s.players ++
            [(name, ⟨some sock, name, true, none, 0, none⟩)] }, none)

/-- `findPlayerBySocketId`: linear scan for the first player bound to the
socket.  The pair also carries the map key so that the caller's in-place
mutation of the found object can be expressed as a keyed update. -/
def findPlayerBySocketId (ps : List (String × PlayerData)) (sid : String) :
    Option (String × PlayerData) :=
  ps.find? (fun e => e.2.socketId = some sid)

/-- JS `parseInt(x, 10)` applied to a numeric payload written in decimal
notation: truncation toward zero (the number is first converted to its
decimal string, whose leading integer part is then parsed). -/
def jsParseInt (q : ℚ) : ℤ :=
  if 0 ≤ q then ⌊q⌋ else -⌊-q⌋

/-- What the `submit_choice` handler sends back to the submitting socket:
either an `error_message` or a `submission_ack` (which echoes the current
round and the parsed pair). -/
inductive SubmitOutcome where
  | err (msg : String)
  | ack (round : ℕ) (x : ℤ) (z : ℚ)
  deriving DecidableEq, Repr

/-- The `submit_choice` handler on a numeric payload `{x, z}`.
`parseFloat` of a (finite) numeric payload is the number itself, and a
rational payload is never NaN, so the `isNaN` arms cannot fire here. -/
def submit_choice (sid : String) (x z : ℚ) (s : State) :
    State × SubmitOutcome :=
  match findPlayerBySocketId s.players sid with
  | none => (s, .err "You must join the lobby first.")
  | some (u, _) =>
    if s.gameState ≠ Phase.round_input then
      (s, .err "Submissions are not open right now.")
    else
      let parsedX := jsParseInt x
      if parsedX < 1 ∨ 10 < parsedX then
        (s, .err "Sword (x) must be an integer between 1 and 10.")
      else if z < 0 ∨ 100 < z then
        (s, .err "Shield (z) must be a number between 0 and 100.")
      else
        ({ s with players := (mapUpdate s.players u
            (fun d => { d with currentRoundSubmission := some ⟨parsedX, z⟩ })) },
         .ack s.currentRound parsedX z)

/-- The `admin_action` handler.  `adminPw` is the `ADMIN_PASSWORD`
configuration value; the handler first compares the supplied password
against it and then switches on the action string.  Returns the new state
and the `error_message` sent back to the caller, if any (success emits no
error and broadcasts immediately). -/
def admin_action (adminPw : String) (action : String) (password : String)
    (s : State) : State × Option String :=
  if password ≠ adminPw then (s, some "Invalid admin password.")
  else
    match action with
    | "start_round" =>
        if s.gameState ≠ Phase.lobby ∧ s.gameState ≠ Phase.round_resolution then
          (s, some ("Cannot start round from phase \"" ++ phaseStr s.gameState ++ "\"."))
        else
          ({ s with players := clearSubmissions s.players,
                    gameState := .round_input,
                    lastRoundResults := [] }, none)
    | "resolve_round" =>
        if s.gameState ≠ Phase.round_input then
          (s, some ("Cannot resolve from phase \"" ++ phaseStr s.gameState ++ "\"."))
        else
          let r := resolveRound s.players
          ({ s with players := r.1,
                    lastRoundResults := r.2,
                    gameState := .round_resolution }, none)
    | "next_round" =>
        if s.gameState ≠ Phase.round_resolution then
          (s, some ("Cannot advance from phase \"" ++ phaseStr s.gameState ++ "\"."))
        else if 3 ≤ s.currentRound then
          ({ s with gameState := .final_standings }, none)
        else
          ({ s with currentRound := s.currentRound + 1,
                    players := clearSubmissions s.players,
                    gameState := .round_input,
                    lastRoundResults := [] }, none)
    | "reset_game" => (resetGame s, none)
    | _ => (s, some ("Unknown admin action: \"" ++ action ++ "\"."))

/-- The truthiness-guarded purge test of the cleanup interval:
`!data.connected && data.disconnectedAt && (now - data.disconnectedAt > RECONNECT_GRACE_MS)`.
A `disconnectedAt` of `0` is falsy in JS, hence the `t ≠ 0` conjunct; the
subtraction is on JS numbers, modelled on ℤ. -/
def purgeCond (now : ℕ) (d : PlayerData) : Bool :=
  !d.connected &&
    (match d.disconnectedAt with
     | some t => decide (t ≠ 0) && decide ((RECONNECT_GRACE_MS : ℤ) < (now : ℤ) - (t : ℤ))
     | none => false)

/-- Result of one run of the 60-second cleanup interval: the surviving
state, how many players were deleted, and whether `broadcastImmediate`
fired (it does exactly when `purged > 0`). -/
structure ReapOutcome where
  state : State
  purged : ℕ
  broadcastFired : Bool
  deriving Repr

/-- One sweep of the stale-player purge at wall-clock time `now`. -/
def reaperSweep (now : ℕ) (s : State) : ReapOutcome :=
  let purged := (s.players.filter (fun e => purgeCond now e.2)).length
  { state := { s with players := s.players.filter (fun e => !purgeCond now e.2) }
    purged := purged
    broadcastFired := decide (0 < purged) }

/-- One leaderboard row of the broadcast payload (`username`,
score rounded to two decimals, `connected`). -/
structure LBEntry where
  username : String
  cumulativeScore : ℚ
  connected : Bool
  deriving DecidableEq, Repr

/-- JS `Math.round`: round half toward positive infinity. -/
def jsRound (q : ℚ) : ℤ := ⌊q + 1 / 2⌋

/-- The row built for one player: `Math.round(p.cumulativeScore * 100) / 100`. -/
def lbEntryOf (e : String × PlayerData) : LBEntry :=
  ⟨e.2.username, (jsRound (e.2.cumulativeScore * 100) : ℚ) / 100, e.2.connected⟩

/-- The comparator `(a, b) => b.cumulativeScore - a.cumulativeScore` orders
`a` before `b` when `a`'s (rounded) score is at least `b`'s. -/
def lbRel (a b : LBEntry) : Prop := b.cumulativeScore ≤ a.cumulativeScore

instance : DecidableRel lbRel := fun a b =>
  inferInstanceAs (Decidable (b.cumulativeScore ≤ a.cumulativeScore))

instance : IsTotal LBEntry lbRel :=
  ⟨fun a b => le_total b.cumulativeScore a.cumulativeScore⟩

instance : IsTrans LBEntry lbRel :=
  ⟨fun _ _ _ hab hbc => le_trans hbc hab⟩

/-- The leaderboard of `buildGameStatePayload`: every player (connected or
not) mapped to a row and stably sorted by descending rounded score
(`Array.prototype.sort` is a stable sort; any stable sort agreeing with the
comparator produces this list, here realised by insertion sort). -/
def snapshotLeaderboard (s : State) : List LBEntry :=
  List.insertionSort lbRel (s.players.map lbEntryOf)

/-- The popularity percentage of a choice `x` in the current submitter set:
`Y = (k(x) / N) * 100`. -/
def popularityY (ps : List (String × PlayerData)) (x : ℤ) : ℚ :=
  ((countChoice (submitters ps) x : ℚ) / ((submitters ps).length : ℚ)) * 100

/-! ## Concrete states used by witnesses and counterexamples -/

/-- Submitter of `x = 5, z = 50` (the literal case of spec section 8). -/
def dA : PlayerData := ⟨some "s1", "a", true, none, 0, some ⟨5, 50⟩⟩

/-- Submitter of `x = 5, z = 60`. -/
def dB : PlayerData := ⟨some "s2", "b", true, none, 0, some ⟨5, 60⟩⟩

/-- Submitter of `x = 8, z = 10`. -/
def dC : PlayerData := ⟨some "s3", "c", true, none, 0, some ⟨8, 10⟩⟩

/-- Three submitters choosing `x = 5, 5, 8`: `k(5) = 2`, `k(8) = 1`, `N = 3`. -/
def samplePlayers : List (String × PlayerData) := [("a", dA), ("b", dB), ("c", dC)]

/-- The three players during the input phase of round 1. -/
def sampleState : State := ⟨samplePlayers, .round_input, 1, []⟩

/-- A single joined player with no submission yet, during the input phase. -/
def freshState : State :=
  ⟨[("a", ⟨some "s1", "a", true, none, 0, none⟩)], .round_input, 1, []⟩

/-- A directory whose insertion order disagrees with the order of the
unrounded scores: "a" (score 0.001) was inserted before "b" (score 0.004),
and both scores round to 0.00. -/
def tieState : State :=
  ⟨[("a", ⟨some "s1", "a", true, none, 1 / 1000, none⟩),
    ("b", ⟨some "s2", "b", true, none, 1 / 250, none⟩)], .lobby, 1, []⟩

/-- The three submitting players while still in the lobby. -/
def lobbyState : State := ⟨samplePlayers, .lobby, 1, []⟩

/-- A state with no players at all. -/
def emptyState : State := ⟨[], .lobby, 1, []⟩

/-- Reaper scenario at `now = 1200001`: "x" went offline at `600000`
(offline for `600001 > grace`), "y" at `600001` (offline for exactly the
grace duration), "z" is connected. -/
def reapState : State :=
  ⟨[("x", ⟨none, "x", false, some 600000, 0, none⟩),
    ("y", ⟨none, "y", false, some 600001, 0, none⟩),
    ("z", ⟨some "s9", "z", true, none, 0, none⟩)], .lobby, 1, []⟩

/-! ## Association-list lemmas -/

theorem mapGet_mem {α : Type} {ps : List (String × α)} {u : String} {v : α}
    (h : mapGet ps u = some v) : (u, v) ∈ ps := by
  induction ps with
  | nil => simp [mapGet] at h
  | cons e rest ih =>
    obtain ⟨k, w⟩ := e
    by_cases hk : k = u
    · subst hk
      simp [mapGet] at h
      simp [h]
    · simp [mapGet, hk] at h
      exact List.mem_cons_of_mem _ (ih h)

theorem mapGet_mapUpdate_eq {α : Type} (ps : List (String × α)) (k : String)
    (f : α → α) : mapGet (mapUpdate ps k f) k = (mapGet ps k).map f := by
  induction ps with
  | nil => simp [mapGet, mapUpdate]
  | cons e rest ih =>
    obtain ⟨k', w⟩ := e
    by_cases hk : k' = k
    · subst hk
      rw [mapUpdate, if_pos rfl, mapGet, if_pos rfl, mapGet, if_pos rfl]
      rfl
    · rw [mapUpdate, if_neg hk, mapGet, if_neg hk, mapGet, if_neg hk, ih]

theorem mapGet_mapUpdate_ne {α : Type} (ps : List (String × α)) {k u : String}
    (f : α → α) (h : k ≠ u) : mapGet (mapUpdate ps k f) u = mapGet ps u := by
  induction ps with
  | nil => simp [mapGet, mapUpdate]
  | cons e rest ih =>
    obtain ⟨k', w⟩ := e
    by_cases hk : k' = k
    · subst hk
      rw [mapUpdate, if_pos rfl, mapGet, if_neg h, mapGet, if_neg h, ih]
    · rw [mapUpdate, if_neg hk]
      by_cases hu : k' = u
      · rw [mapGet, if_pos hu, mapGet, if_pos hu]
      · rw [mapGet, if_neg hu, mapGet, if_neg hu, ih]

theorem mapUpdate_keys {α : Type} (ps : List (String × α)) (k : String)
    (f : α → α) : (mapUpdate ps k f).map Prod.fst = ps.map Prod.fst := by
  induction ps with
  | nil => rfl
  | cons e rest ih =>
    obtain ⟨k', w⟩ := e
    by_cases hk : k' = k
    · rw [mapUpdate, if_pos hk, List.map_cons, List.map_cons, ih]
    · rw [mapUpdate, if_neg hk, List.map_cons, List.map_cons, ih]

theorem mapGet_append_left {α : Type} {ps : List (String × α)} {u : String}
    {v : α} (qs : List (String × α)) (h : mapGet ps u = some v) :
    mapGet (ps ++ qs) u = some v := by
  induction ps with
  | nil => simp [mapGet] at h
  | cons e rest ih =>
    obtain ⟨k, w⟩ := e
    by_cases hk : k = u
    · subst hk
      simp [mapGet] at h ⊢
      exact h
    · simp [mapGet, hk] at h ⊢
      exact ih h

theorem applyResults_cons (ps : List (String × PlayerData)) (r : RoundResult)
    (rs : List RoundResult) :
    applyResults ps (r :: rs) =
      applyResults
        (mapUpdate ps r.username
          (fun d => { d with cumulativeScore := d.cumulativeScore + r.roundScore }))
        rs :=
  rfl

theorem mapGet_applyResults_notmem (ps : List (String × PlayerData))
    (rs : List RoundResult) (u : String)
    (h : ∀ r ∈ rs, r.username ≠ u) :
    mapGet (applyResults ps rs) u = mapGet ps u := by
  induction rs generalizing ps with
  | nil => rfl
  | cons r rest ih =>
    rw [applyResults_cons, ih _ (fun r' hr' => h r' (List.mem_cons_of_mem _ hr'))]
    exact mapGet_mapUpdate_ne ps _ (h r (List.mem_cons_self _ _))

theorem mapGet_applyResults_once (ps : List (String × PlayerData))
    (rs : List RoundResult) (u : String) (r : RoundResult)
    (h : rs.filter (fun r' => r'.username = u) = [r]) :
    mapGet (applyResults ps rs) u =
      (mapGet ps u).map
        (fun d => { d with cumulativeScore := d.cumulativeScore + r.roundScore }) := by
  induction rs generalizing ps with
  | nil => simp at h
  | cons r0 rest ih =>
    by_cases h0 : r0.username = u
    · rw [List.filter_cons, if_pos (by simpa using h0)] at h
      have hr0 : r0 = r := (List.cons_eq_cons.mp h).1
      have hnil : rest.filter (fun r' => r'.username = u) = [] :=
        (List.cons_eq_cons.mp h).2
      have hnot : ∀ r' ∈ rest, r'.username ≠ u := by
        intro r' hr' hc
        have hmem : r' ∈ rest.filter (fun r'' => r''.username = u) :=
          List.mem_filter.mpr ⟨hr', by simpa using hc⟩
        rw [hnil] at hmem
        simp at hmem
      rw [applyResults_cons, mapGet_applyResults_notmem _ _ _ hnot, ← hr0, ← h0,
        mapGet_mapUpdate_eq]
    · rw [List.filter_cons, if_neg (by simpa using h0)] at h
      rw [applyResults_cons, ih _ h, mapGet_mapUpdate_ne ps _ h0]

theorem filter_key_eq_nil {α : Type} (ps : List (String × α)) (u : String)
    (h : u ∉ ps.map Prod.fst) :
    ps.filter (fun e => e.1 = u) = [] := by
  induction ps with
  | nil => rfl
  | cons e rest ih =>
    simp only [List.map_cons, List.mem_cons, not_or] at h
    rw [List.filter_cons, if_neg (by simpa using Ne.symm h.1), ih h.2]

theorem filter_key_eq_of_nodup {α : Type} (ps : List (String × α))
    (u : String) (v : α) (hnd : (ps.map Prod.fst).Nodup) (hm : (u, v) ∈ ps) :
    ps.filter (fun e => e.1 = u) = [(u, v)] := by
  induction ps with
  | nil => simp at hm
  | cons e rest ih =>
    simp only [List.map_cons, List.nodup_cons] at hnd
    rcases List.mem_cons.mp hm with he | hrest
    · subst he
      rw [List.filter_cons, if_pos (by simp), filter_key_eq_nil rest u hnd.1]
    · have hne : e.1 ≠ u := by
        intro hc
        exact hnd.1 (hc ▸ (List.mem_map.mpr ⟨(u, v), hrest, rfl⟩))
      rw [List.filter_cons, if_neg (by simpa using hne), ih hnd.2 hrest]

theorem filter_map_comm {α β : Type} (p : β → Bool) (f : α → β) (l : List α) :
    (l.map f).filter p = (l.filter (fun a => p (f a))).map f := by
  induction l with
  | nil => rfl
  | cons a rest ih =>
    by_cases ha : p (f a) <;> simp [List.filter_cons, ha, ih]

/-! ## Facts about `resolveRound` -/

theorem mem_submitters {ps : List (String × PlayerData)} {u : String}
    {d : PlayerData} {sub : Submission} (hm : (u, d) ∈ ps)
    (hs : d.currentRoundSubmission = some sub) : (u, d) ∈ submitters ps :=
  List.mem_filter.mpr ⟨hm, by simp [hs]⟩

theorem submitters_keys_nodup {ps : List (String × PlayerData)}
    (hnd : (ps.map Prod.fst).Nodup) :
    ((submitters ps).map Prod.fst).Nodup :=
  hnd.sublist ((List.filter_sublist ps).map Prod.fst)

theorem mkResult_eval (N : ℕ) (subs : List (String × PlayerData))
    (u : String) (d : PlayerData) {sub : Submission}
    (hs : d.currentRoundSubmission = some sub) :
    mkResult N subs (u, d) =
      ⟨u, sub.x, sub.z, countChoice subs sub.x,
        ((countChoice subs sub.x : ℚ) / (N : ℚ)) * 100,
        (sub.x : ℚ) * (1 - (((countChoice subs sub.x : ℚ) / (N : ℚ)) * 100) / 100),
        |((countChoice subs sub.x : ℚ) / (N : ℚ)) * 100 - sub.z| / 10,
        (sub.x : ℚ) * (1 - (((countChoice subs sub.x : ℚ) / (N : ℚ)) * 100) / 100) -
          |((countChoice subs sub.x : ℚ) / (N : ℚ)) * 100 - sub.z| / 10⟩ := by
  simp [mkResult, hs]

theorem resolveRound_results_filter (ps : List (String × PlayerData))
    (hnd : (ps.map Prod.fst).Nodup) (u : String) (d : PlayerData)
    (sub : Submission) (hget : mapGet ps u = some d)
    (hs : d.currentRoundSubmission = some sub) :
    ((submitters ps).map (mkResult (submitters ps).length (submitters ps))).filter
        (fun r => r.username = u) =
      [mkResult (submitters ps).length (submitters ps) (u, d)] := by
  rw [filter_map_comm]
  have hcomp : (fun e : String × PlayerData =>
      decide ((mkResult (submitters ps).length (submitters ps) e).username = u)) =
      (fun e : String × PlayerData => decide (e.1 = u)) := by
    funext e
    rfl
  rw [hcomp,
    filter_key_eq_of_nodup (submitters ps) u d (submitters_keys_nodup hnd)
      (mem_submitters (mapGet_mem hget) hs),
    List.map_singleton]

/-! ## More association-list lemmas -/

theorem mapGet_entry_map {α : Type} (g : α → α) (ps : List (String × α))
    (u : String) :
    mapGet (ps.map (fun e => (e.1, g e.2))) u = (mapGet ps u).map g := by
  induction ps with
  | nil => rfl
  | cons e rest ih =>
    obtain ⟨k, v⟩ := e
    by_cases hk : k = u
    · rw [List.map_cons, mapGet, if_pos hk, mapGet, if_pos hk]
      rfl
    · rw [List.map_cons, mapGet, if_neg hk, mapGet, if_neg hk, ih]

theorem entry_map_keys {α : Type} (g : α → α) (ps : List (String × α)) :
    (ps.map (fun e => (e.1, g e.2))).map Prod.fst = ps.map Prod.fst := by
  rw [List.map_map]
  rfl

theorem mapGet_append_of_none {α : Type} {ps : List (String × α)} {u : String}
    (qs : List (String × α)) (h : mapGet ps u = none) :
    mapGet (ps ++ qs) u = mapGet qs u := by
  induction ps with
  | nil => rfl
  | cons e rest ih =>
    obtain ⟨k, v⟩ := e
    by_cases hk : k = u
    · rw [mapGet, if_pos hk] at h
      simp at h
    · rw [mapGet, if_neg hk] at h
      rw [List.cons_append, mapGet, if_neg hk, ih h]

theorem mapGet_mapUpdate_proj {α β : Type} (ps : List (String × α))
    (k u : String) (f : α → α) (proj : α → β)
    (hf : ∀ d, proj (f d) = proj d) :
    (mapGet (mapUpdate ps k f) u).map proj = (mapGet ps u).map proj := by
  by_cases hk : k = u
  · subst hk
    rw [mapGet_mapUpdate_eq, Option.map_map]
    cases mapGet ps k with
    | none => rfl
    | some d => simp [hf]
  · rw [mapGet_mapUpdate_ne ps f hk]

theorem mapGet_applyResults_sub (ps : List (String × PlayerData))
    (rs : List RoundResult) (u : String) :
    (mapGet (applyResults ps rs) u).map (fun d => d.currentRoundSubmission) =
      (mapGet ps u).map (fun d => d.currentRoundSubmission) := by
  induction rs generalizing ps with
  | nil => rfl
  | cons r rest ih =>
    rw [applyResults_cons, ih]
    exact mapGet_mapUpdate_proj ps r.username u _ _ (fun d => rfl)

theorem clearSubmissions_all_none (ps : List (String × PlayerData)) :
    ∀ e ∈ clearSubmissions ps, e.2.currentRoundSubmission = none := by
  intro e he
  obtain ⟨orig, _, horig⟩ := List.mem_map.mp he
  rw [← horig]

/-! ## Claim theorems -/

/-- **C1**: with at least one submitter, every submitter holding
`(choice = x, prediction = z)` has `roundScore = x * (1 - Y/100) - |Y - z|/10`
(with `Y = (k(x)/N) * 100`) added to their `cumulativeScore` exactly once and
appears in exactly one result entry carrying those values; with no
submitters the result set is empty and no `cumulativeScore` changes. -/
theorem resolveRound_scores_each_submitter_once
    (ps : List (String × PlayerData)) (hnd : (ps.map Prod.fst).Nodup) :
    (∀ u d sub, mapGet ps u = some d → d.currentRoundSubmission = some sub →
      1 ≤ (submitters ps).length ∧
      mapGet (resolveRound ps).1 u =
        some { d with cumulativeScore := d.cumulativeScore +
          ((sub.x : ℚ) * (1 - popularityY ps sub.x / 100) -
            |popularityY ps sub.x - sub.z| / 10) } ∧
      (resolveRound ps).2.filter (fun r => r.username = u) =
        [⟨u, sub.x, sub.z, countChoice (submitters ps) sub.x, popularityY ps sub.x,
          (sub.x : ℚ) * (1 - popularityY ps sub.x / 100),
          |popularityY ps sub.x - sub.z| / 10,
          (sub.x : ℚ) * (1 - popularityY ps sub.x / 100) -
            |popularityY ps sub.x - sub.z| / 10⟩]) ∧
    ((∀ e ∈ ps, e.2.currentRoundSubmission = none) → resolveRound ps = (ps, [])) := by
  constructor
  · intro u d sub hget hs
    have hmem : (u, d) ∈ ps := mapGet_mem hget
    have hmemsub : (u, d) ∈ submitters ps := mem_submitters hmem hs
    have hN0 : (submitters ps).length ≠ 0 := by
      intro hc
      rw [List.length_eq_zero] at hc
      rw [hc] at hmemsub
      simp at hmemsub
    have hres : resolveRound ps =
        (applyResults ps
          ((submitters ps).map (mkResult (submitters ps).length (submitters ps))),
         (submitters ps).map (mkResult (submitters ps).length (submitters ps))) := by
      simp only [resolveRound]
      rw [if_neg hN0]
    refine ⟨Nat.one_le_iff_ne_zero.mpr hN0, ?_, ?_⟩
    · rw [hres,
        mapGet_applyResults_once ps _ u
          (mkResult (submitters ps).length (submitters ps) (u, d))
          (resolveRound_results_filter ps hnd u d sub hget hs),
        hget, mkResult_eval _ _ _ _ hs]
      rfl
    · rw [hres, resolveRound_results_filter ps hnd u d sub hget hs,
        mkResult_eval _ _ _ _ hs]
      rfl
  · intro hall
    have hsubnil : submitters ps = [] := by
      apply List.filter_eq_nil_iff.mpr
      intro e he
      simp [hall e he]
    simp [resolveRound, hsubnil]

/-- Witness for C1 at the spec's literal case (`x = 5, 5, 8`, `N = 3`):
`Y(5) = 200/3 ≈ 66.67`, `Y(8) = 100/3 ≈ 33.33`, and player "a" receives
exactly the formula score. -/
theorem resolveRound_scores_witness :
    popularityY samplePlayers 5 = 200 / 3 ∧
    popularityY samplePlayers 8 = 100 / 3 ∧
    mapGet (resolveRound samplePlayers).1 "a" =
      some { dA with cumulativeScore := dA.cumulativeScore +
        (((5 : ℤ) : ℚ) * (1 - popularityY samplePlayers 5 / 100) -
          |popularityY samplePlayers 5 - 50| / 10) } :=
  ⟨by norm_num [popularityY, countChoice, submitters, samplePlayers, dA, dB, dC],
    by norm_num [popularityY, countChoice, submitters, samplePlayers, dA, dB, dC],
    ((resolveRound_scores_each_submitter_once samplePlayers (by decide)).1
      "a" dA ⟨5, 50⟩ rfl rfl).2.1⟩

/-- **C2 counterexample**: in a `round_input` state with one submitter,
`resolve_round` succeeds, yet immediately afterwards player "a" still holds
the pending submission of the closed round — it is not cleared at
resolution. -/
theorem resolve_round_keeps_pendingSubmission_cx :
    (admin_action "pw" "resolve_round" "pw" sampleState).2 = none ∧
    (mapGet (admin_action "pw" "resolve_round" "pw" sampleState).1.players "a").map
        (fun d => d.currentRoundSubmission) = some (some ⟨5, 50⟩) := by
  constructor
  · rfl
  · rfl

/-- **C2 amended**: pending submissions are cleared whenever a round starts
(`start_round`, `next_round` advancing into the next input phase) and on
`reset_game`, but NOT by `resolve_round` itself: a successful resolution
leaves every player's `currentRoundSubmission` exactly as it was, and the
stale values are only discarded when the next input phase is entered. -/
theorem submissions_cleared_at_round_start (adminPw : String) (s : State) :
    ((admin_action adminPw "start_round" adminPw s).2 = none →
      ∀ e ∈ (admin_action adminPw "start_round" adminPw s).1.players,
        e.2.currentRoundSubmission = none) ∧
    ((admin_action adminPw "next_round" adminPw s).2 = none →
      (admin_action adminPw "next_round" adminPw s).1.gameState = Phase.round_input →
      ∀ e ∈ (admin_action adminPw "next_round" adminPw s).1.players,
        e.2.currentRoundSubmission = none) ∧
    (∀ e ∈ (admin_action adminPw "reset_game" adminPw s).1.players,
        e.2.currentRoundSubmission = none) ∧
    ((admin_action adminPw "resolve_round" adminPw s).2 = none →
      ∀ u, (mapGet (admin_action adminPw "resolve_round" adminPw s).1.players u).map
          (fun d => d.currentRoundSubmission) =
        (mapGet s.players u).map (fun d => d.currentRoundSubmission)) := by
  refine ⟨?_, ?_, ?_, ?_⟩
  · intro hok
    by_cases hg : s.gameState ≠ Phase.lobby ∧ s.gameState ≠ Phase.round_resolution
    · simp [admin_action, hg] at hok
    · simp only [admin_action, if_neg (by simp : ¬adminPw ≠ adminPw), if_neg hg]
      exact clearSubmissions_all_none s.players
  · intro hok hphase
    by_cases hg : s.gameState ≠ Phase.round_resolution
    · simp [admin_action, hg] at hok
    · by_cases hr : 3 ≤ s.currentRound
      · simp [admin_action, hg, hr] at hphase
      · simp only [admin_action, if_neg (by simp : ¬adminPw ≠ adminPw), if_neg hg,
          if_neg hr]
        exact clearSubmissions_all_none s.players
  · simp only [admin_action, if_neg (by simp : ¬adminPw ≠ adminPw), resetGame]
    intro e he
    obtain ⟨orig, _, horig⟩ := List.mem_map.mp he
    rw [← horig]
  · intro hok
    by_cases hg : s.gameState ≠ Phase.round_input
    · simp [admin_action, hg] at hok
    · intro u
      simp only [admin_action, if_neg (by simp : ¬adminPw ≠ adminPw), if_neg hg]
      simp only [resolveRound]
      by_cases hN : (submitters s.players).length = 0
      · rw [if_pos hN]
      · rw [if_neg hN]
        exact mapGet_applyResults_sub s.players _ u

/-- Witness for the amended C2: `start_round` from the lobby wipes the stale
submissions of all three sample players, and a successful `resolve_round`
leaves "a"'s submission untouched. -/
theorem submissions_cleared_witness :
    (∀ e ∈ (admin_action "pw" "start_round" "pw" lobbyState).1.players,
        e.2.currentRoundSubmission = none) ∧
    (mapGet (admin_action "pw" "resolve_round" "pw" sampleState).1.players "a").map
        (fun d => d.currentRoundSubmission) =
      (mapGet sampleState.players "a").map (fun d => d.currentRoundSubmission) :=
  ⟨(submissions_cleared_at_round_start "pw" lobbyState).1 rfl,
    (submissions_cleared_at_round_start "pw" sampleState).2.2.2 rfl "a"⟩

/-- **C3**: a correctly-authorized `reset_game` from any state yields
`phase = lobby`, `currentRound = 1`, empty `lastResults`; every player's
`cumulativeScore` becomes `0` and `pendingSubmission` is cleared, while the
key set and every other per-player field are untouched. -/
theorem reset_game_returns_to_lobby (adminPw : String) (s : State) :
    (admin_action adminPw "reset_game" adminPw s).2 = none ∧
    (admin_action adminPw "reset_game" adminPw s).1.gameState = Phase.lobby ∧
    (admin_action adminPw "reset_game" adminPw s).1.currentRound = 1 ∧
    (admin_action adminPw "reset_game" adminPw s).1.lastRoundResults = [] ∧
    (admin_action adminPw "reset_game" adminPw s).1.players.map Prod.fst =
      s.players.map Prod.fst ∧
    ∀ u, mapGet (admin_action adminPw "reset_game" adminPw s).1.players u =
      (mapGet s.players u).map
        (fun d => { d with cumulativeScore := 0, currentRoundSubmission := none }) := by
  have hred : admin_action adminPw "reset_game" adminPw s = (resetGame s, none) := by
    simp [admin_action]
  rw [hred]
  refine ⟨rfl, rfl, rfl, rfl, ?_, ?_⟩
  · simp only [resetGame]
    exact entry_map_keys
      (fun d => { d with cumulativeScore := 0, currentRoundSubmission := none })
      s.players
  · intro u
    simp only [resetGame]
    exact mapGet_entry_map
      (fun d => { d with cumulativeScore := 0, currentRoundSubmission := none })
      s.players u

/-- **C4**: a correctly-authorized admin action issued from a phase that is
not legal for it is answered with an error message that names the current
phase, and the whole state — players, phase, round counter and
`lastRoundResults` — is returned unchanged. -/
theorem admin_action_illegal_phase_rejected (adminPw : String) (s : State)
    (a : String)
    (h : (a = "start_round" ∧ s.gameState ≠ Phase.lobby ∧
            s.gameState ≠ Phase.round_resolution) ∨
         (a = "resolve_round" ∧ s.gameState ≠ Phase.round_input) ∨
         (a = "next_round" ∧ s.gameState ≠ Phase.round_resolution)) :
    ∃ pre post : String,
      admin_action adminPw a adminPw s =
        (s, some (pre ++ phaseStr s.gameState ++ post)) := by
  rcases h with ⟨ha, h1, h2⟩ | ⟨ha, h1⟩ | ⟨ha, h1⟩ <;> subst ha
  · exact ⟨"Cannot start round from phase \"", "\".",
      by simp [admin_action, h1, h2]⟩
  · exact ⟨"Cannot resolve from phase \"", "\".",
      by simp [admin_action, h1]⟩
  · exact ⟨"Cannot advance from phase \"", "\".",
      by simp [admin_action, h1]⟩

/-- Witness for C4: the second of two consecutive `resolve_round` calls is
rejected (the phase is by then `round_resolution`) and leaves the state —
including `lastRoundResults` — unchanged. -/
theorem admin_action_illegal_phase_witness :
    ∃ pre post : String,
      admin_action "pw" "resolve_round" "pw"
          (admin_action "pw" "resolve_round" "pw" sampleState).1 =
        ((admin_action "pw" "resolve_round" "pw" sampleState).1,
         some (pre ++
           phaseStr (admin_action "pw" "resolve_round" "pw" sampleState).1.gameState ++
           post)) :=
  admin_action_illegal_phase_rejected "pw"
    (admin_action "pw" "resolve_round" "pw" sampleState).1 "resolve_round"
    (Or.inr (Or.inl ⟨rfl, by decide⟩))

/-- **C5 counterexample**: during `round_input`, a joined player submitting
`choice = 11/2` — not an integer — receives no error: the handler parses it
with `parseInt`, truncating to `5`, acknowledges the submission and stores
`{x = 5, z = 50}`. -/
theorem submit_choice_noninteger_accepted_cx :
    (¬ ∃ n : ℤ, ((11 : ℚ) / 2) = (n : ℚ)) ∧
    (submit_choice "s1" ((11 : ℚ) / 2) 50 freshState).2 = SubmitOutcome.ack 1 5 50 ∧
    (mapGet (submit_choice "s1" ((11 : ℚ) / 2) 50 freshState).1.players "a").map
      (fun d => d.currentRoundSubmission) = some (some ⟨5, 50⟩) := by
  refine ⟨?_, ?_, ?_⟩
  · rintro ⟨n, hn⟩
    field_simp at hn
    have hz : (11 : ℤ) = n * 2 := by exact_mod_cast hn
    omega
  · norm_num [submit_choice, findPlayerBySocketId, freshState, jsParseInt]
  · norm_num [submit_choice, findPlayerBySocketId, freshState, jsParseInt,
      mapUpdate, mapGet]

/-- **C5 amended**: during `round_input` from a joined player, the handler
validates the *truncated* choice `parseInt(x)` against `[1, 10]` and the
prediction against `[0, 100]`: on violation an error is sent to the
submitter only and the state is fully unchanged; otherwise the submission
`{parseInt(x), z}` is stored for that player alone — silently replacing any
earlier submission of the same round — and an ack is sent. -/
theorem submit_choice_validation (s : State) (sid : String) (x z : ℚ)
    (u : String) (d : PlayerData)
    (hf : findPlayerBySocketId s.players sid = some (u, d))
    (hp : s.gameState = Phase.round_input) :
    ((jsParseInt x < 1 ∨ 10 < jsParseInt x) →
      submit_choice sid x z s =
        (s, .err "Sword (x) must be an integer between 1 and 10.")) ∧
    ((1 ≤ jsParseInt x ∧ jsParseInt x ≤ 10) → (z < 0 ∨ 100 < z) →
      submit_choice sid x z s =
        (s, .err "Shield (z) must be a number between 0 and 100.")) ∧
    ((1 ≤ jsParseInt x ∧ jsParseInt x ≤ 10) → (0 ≤ z ∧ z ≤ 100) →
      (submit_choice sid x z s).2 = .ack s.currentRound (jsParseInt x) z ∧
      mapGet (submit_choice sid x z s).1.players u =
        (mapGet s.players u).map
          (fun d0 => { d0 with currentRoundSubmission := some ⟨jsParseInt x, z⟩ }) ∧
      (∀ v, v ≠ u →
        mapGet (submit_choice sid x z s).1.players v = mapGet s.players v) ∧
      (submit_choice sid x z s).1.gameState = s.gameState ∧
      (submit_choice sid x z s).1.currentRound = s.currentRound ∧
      (submit_choice sid x z s).1.lastRoundResults = s.lastRoundResults) := by
  have hgate : ¬s.gameState ≠ Phase.round_input := by simp [hp]
  refine ⟨fun hx => ?_, fun hx1 hz => ?_, fun hx1 hz => ?_⟩
  · simp only [submit_choice, hf]
    rw [if_neg hgate, if_pos hx]
  · simp only [submit_choice, hf]
    rw [if_neg hgate, if_neg (by omega), if_pos hz]
  · have hznot : ¬(z < 0 ∨ 100 < z) := by
      simp only [not_or, not_lt]
      exact hz
    simp only [submit_choice, hf]
    rw [if_neg hgate, if_neg (by omega), if_neg hznot]
    refine ⟨rfl, ?_, ?_, rfl, rfl, rfl⟩
    · exact mapGet_mapUpdate_eq s.players u _
    · intro v hv
      exact mapGet_mapUpdate_ne s.players _ (Ne.symm hv)

/-- Witness for the amended C5: a valid submission `x = 7, z = 50` is
acknowledged, and an out-of-range `x = -3` is rejected with the sword error
and no state change. -/
theorem submit_choice_validation_witness :
    jsParseInt 7 = 7 ∧
    (submit_choice "s1" 7 50 freshState).2 =
      SubmitOutcome.ack 1 (jsParseInt 7) 50 ∧
    submit_choice "s1" (-3) 50 freshState =
      (freshState, .err "Sword (x) must be an integer between 1 and 10.") :=
  ⟨by norm_num [jsParseInt],
   ((submit_choice_validation freshState "s1" 7 50 "a"
      ⟨some "s1", "a", true, none, 0, none⟩ rfl rfl).2.2
      (by norm_num [jsParseInt]) (by norm_num)).1,
   (submit_choice_validation freshState "s1" (-3) 50 "a"
      ⟨some "s1", "a", true, none, 0, none⟩ rfl rfl).1
      (by norm_num [jsParseInt])⟩

/-- **C6 counterexample**: `join_lobby` with the whitespace-only username
`"   "` is not rejected — the guard only catches the empty raw string — and
it creates a directory entry whose identity is the empty string, of length
`0 < 1`. -/
theorem join_lobby_whitespace_identity_cx :
    (join_lobby "   " "s1" emptyState).1.players =
      [("", ⟨some "s1", "", true, none, 0, none⟩)] ∧
    ("" : String).length = 0 ∧
    (join_lobby "   " "s1" emptyState).2 = none := by
  refine ⟨by decide, rfl, by decide⟩

/-- **C6 amended**: every identity `join_lobby` stores is
`raw.trim().substring(0, 20)` and hence at most 20 characters long; the
empty raw string is rejected before any entry is created, but a raw string
that is empty only after trimming is not; existing entries keep their
identity unchanged, and a newly created entry's stored `username` equals
its key. -/
theorem join_lobby_identity_bounds (s : State) (raw sock : String) :
    (raw = "" → join_lobby raw sock s = (s, some "A valid username is required.")) ∧
    (cleanName raw).length ≤ 20 ∧
    ((join_lobby raw sock s).1.players.map Prod.fst = s.players.map Prod.fst ∨
      (join_lobby raw sock s).1.players.map Prod.fst =
        s.players.map Prod.fst ++ [cleanName raw]) ∧
    (∀ u d, mapGet s.players u = some d →
      ∃ d', mapGet (join_lobby raw sock s).1.players u = some d' ∧
        d'.username = d.username) ∧
    (raw ≠ "" → mapGet s.players (cleanName raw) = none →
      mapGet (join_lobby raw sock s).1.players (cleanName raw) =
        some ⟨some sock, cleanName raw, true, none, 0, none⟩) := by
  refine ⟨fun hraw => by simp [join_lobby, hraw], ?_, ?_, ?_, ?_⟩
  · simp [cleanName, String.length, List.length_take]
  · by_cases hraw : raw = ""
    · left
      simp [join_lobby, hraw]
    · simp only [join_lobby, if_neg hraw]
      cases hm : mapGet s.players (cleanName raw) with
      | some d0 =>
        left
        simp only [hm]
        exact mapUpdate_keys s.players (cleanName raw) _
      | none =>
        right
        simp only [hm, List.map_append]
        rfl
  · intro u d hget
    by_cases hraw : raw = ""
    · exact ⟨d, by simp [join_lobby, hraw, hget], rfl⟩
    · simp only [join_lobby, if_neg hraw]
      cases hm : mapGet s.players (cleanName raw) with
      | some d0 =>
        simp only [hm]
        by_cases hu : cleanName raw = u
        · subst hu
          refine ⟨{ d with socketId := some sock, connected := true,
                           disconnectedAt := none }, ?_, rfl⟩
          rw [mapGet_mapUpdate_eq, hget]
          rfl
        · refine ⟨d, ?_, rfl⟩
          rw [mapGet_mapUpdate_ne s.players _ hu]
          exact hget
      | none =>
        simp only [hm]
        exact ⟨d, mapGet_append_left _ hget, rfl⟩
  · intro hraw hm
    simp only [join_lobby, if_neg hraw, hm]
    rw [mapGet_append_of_none _ hm, mapGet, if_pos rfl]

/-- Witness for the amended C6: joining as `"  Alice "` creates the entry
keyed and named `"Alice"` (5 ≤ 20 characters), and the empty username is
rejected outright. -/
theorem join_lobby_identity_witness :
    (cleanName "  Alice ").length ≤ 20 ∧
    mapGet (join_lobby "  Alice " "s1" emptyState).1.players (cleanName "  Alice ") =
      some ⟨some "s1", cleanName "  Alice ", true, none, 0, none⟩ ∧
    join_lobby "" "s1" emptyState =
      (emptyState, some "A valid username is required.") :=
  ⟨(join_lobby_identity_bounds emptyState "  Alice " "s1").2.1,
   (join_lobby_identity_bounds emptyState "  Alice " "s1").2.2.2.2
     (by decide) rfl,
   (join_lobby_identity_bounds emptyState "" "s1").1 rfl⟩

/-- **C7**: in a sweep at time `now`, a connected player is never purged; an
offline player with a (non-zero) disconnect timestamp `t` is purged exactly
when `now - t` strictly exceeds the grace duration (offline for exactly the
grace duration survives); and the immediate broadcast fires exactly when at
least one player was purged. -/
theorem reaper_purge_boundary (now : ℕ) (s : State) :
    (∀ e ∈ s.players, e.2.connected = true →
      e ∈ (reaperSweep now s).state.players) ∧
    (∀ e ∈ s.players, ∀ t : ℕ, e.2.connected = false →
      e.2.disconnectedAt = some t → 0 < t →
      (e ∉ (reaperSweep now s).state.players ↔
        (RECONNECT_GRACE_MS : ℤ) < (now : ℤ) - (t : ℤ))) ∧
    ((reaperSweep now s).broadcastFired = true ↔
      0 < (reaperSweep now s).purged) := by
  refine ⟨?_, ?_, ?_⟩
  · intro e he hc
    exact List.mem_filter.mpr ⟨he, by simp [purgeCond, hc]⟩
  · intro e he t hc hd ht0
    have hpc : purgeCond now e.2 =
        decide ((RECONNECT_GRACE_MS : ℤ) < (now : ℤ) - (t : ℤ)) := by
      simp [purgeCond, hc, hd, Nat.pos_iff_ne_zero.mp ht0]
    have hmem : e ∈ (reaperSweep now s).state.players ↔
        purgeCond now e.2 = false := by
      simp only [reaperSweep, List.mem_filter, Bool.not_eq_true']
      exact and_iff_right he
    rw [not_congr hmem, Bool.not_eq_false, hpc, decide_eq_true_eq]
  · simp [reaperSweep]

/-- Witness for C7 at `now = 1200001`: "x" (offline since `600000`, one
millisecond beyond the grace) is purged, "y" (offline for exactly the grace
duration) is kept, connected "z" is kept, and the broadcast fires. -/
theorem reaper_purge_boundary_witness :
    ("x", (⟨none, "x", false, some 600000, 0, none⟩ : PlayerData)) ∉
      (reaperSweep 1200001 reapState).state.players ∧
    ("y", (⟨none, "y", false, some 600001, 0, none⟩ : PlayerData)) ∈
      (reaperSweep 1200001 reapState).state.players ∧
    ("z", (⟨some "s9", "z", true, none, 0, none⟩ : PlayerData)) ∈
      (reaperSweep 1200001 reapState).state.players ∧
    (reaperSweep 1200001 reapState).broadcastFired = true := by
  refine ⟨?_, ?_, ?_, ?_⟩
  · exact ((reaper_purge_boundary 1200001 reapState).2.1 _ (by decide)
      600000 rfl rfl (by decide)).mpr (by decide)
  · have hiff := (reaper_purge_boundary 1200001 reapState).2.1
      ("y", (⟨none, "y", false, some 600001, 0, none⟩ : PlayerData)) (by decide)
      600001 rfl rfl (by decide)
    by_contra h
    exact absurd (hiff.mp h) (by decide)
  · exact (reaper_purge_boundary 1200001 reapState).1 _ (by decide) rfl
  · exact ((reaper_purge_boundary 1200001 reapState).2.2).mpr (by decide)

/-- **C8 counterexample**: a wrong administrator secret and an unknown admin
action both leave the state untouched, but the two error messages differ
("Invalid admin password." versus "Unknown admin action: ..."), so the
caller CAN distinguish the authorization failure from that validation
failure. -/
theorem admin_auth_error_distinguishable_cx :
    admin_action "pw" "start_round" "wrong" emptyState =
      (emptyState, some "Invalid admin password.") ∧
    admin_action "pw" "bogus" "pw" emptyState =
      (emptyState, some "Unknown admin action: \"bogus\".") ∧
    ("Invalid admin password." : String) ≠ "Unknown admin action: \"bogus\"." :=
  ⟨rfl, rfl, by decide⟩

/-- **C8 amended**: any admin request with a wrong secret leaves the state
untouched and reports "Invalid admin password." to the caller only; this
message however differs from every unknown-admin-action validation error,
so an authorization failure is distinguishable from that validation
failure. -/
theorem admin_wrong_secret_no_state_change (adminPw a pw : String) (s : State)
    (h : pw ≠ adminPw) :
    admin_action adminPw a pw s = (s, some "Invalid admin password.") ∧
    ∀ a' : String,
      ("Invalid admin password." : String) ≠
        "Unknown admin action: \"" ++ a' ++ "\"." := by
  constructor
  · simp [admin_action, h]
  · intro a' hc
    have h1 : ("Invalid admin password." : String).data.head? = some 'I' := rfl
    have h2 : ("Unknown admin action: \"" ++ a' ++ "\"." : String).data.head? =
        some 'U' := rfl
    rw [hc] at h1
    exact absurd (h1.symm.trans h2) (by decide)

/-- Witness for the amended C8: the wrong secret "wrong" is rejected with
the fixed password error, which differs from the unknown-action error for
"bogus". -/
theorem admin_wrong_secret_witness :
    admin_action "pw" "next_round" "wrong" emptyState =
      (emptyState, some "Invalid admin password.") ∧
    ("Invalid admin password." : String) ≠ "Unknown admin action: \"reset\"." :=
  ⟨(admin_wrong_secret_no_state_change "pw" "next_round" "wrong" emptyState
      (by decide)).1,
   (admin_wrong_secret_no_state_change "pw" "next_round" "wrong" emptyState
      (by decide)).2 "reset"⟩

/-- **C10**: two distinct raw usernames whose cleaned forms
(`trim` then first 20 characters) coincide key the same player entry: the
second `join_lobby` re-attaches the existing entry in place — new socket,
marked connected, `disconnectedAt` cleared — preserving its score,
submission and identity, and adds no new entry. -/
theorem join_lobby_same_key_reconnects (s : State)
    (raw1 raw2 sock1 sock2 : String)
    (h1 : raw1 ≠ "") (h2 : raw2 ≠ "") (_hne : raw1 ≠ raw2)
    (hsame : cleanName raw1 = cleanName raw2) :
    ∃ d1, mapGet (join_lobby raw1 sock1 s).1.players (cleanName raw1) = some d1 ∧
      (join_lobby raw2 sock2 (join_lobby raw1 sock1 s).1).1.players.map Prod.fst =
        (join_lobby raw1 sock1 s).1.players.map Prod.fst ∧
      mapGet (join_lobby raw2 sock2 (join_lobby raw1 sock1 s).1).1.players
          (cleanName raw1) =
        some { d1 with socketId := some sock2, connected := true,
                       disconnectedAt := none } := by
  have hstep1 : ∃ d1,
      mapGet (join_lobby raw1 sock1 s).1.players (cleanName raw1) = some d1 := by
    simp only [join_lobby, if_neg h1]
    cases hm : mapGet s.players (cleanName raw1) with
    | some d0 =>
      simp only [hm]
      exact ⟨_, by rw [mapGet_mapUpdate_eq, hm]; rfl⟩
    | none =>
      simp only [hm]
      exact ⟨_, by rw [mapGet_append_of_none _ hm, mapGet, if_pos rfl]⟩
  obtain ⟨d1, hd1⟩ := hstep1
  generalize hgen : (join_lobby raw1 sock1 s).1 = s1 at hd1 ⊢
  refine ⟨d1, hd1, ?_, ?_⟩
  · simp only [join_lobby, if_neg h2, ← hsame, hd1]
    exact mapUpdate_keys _ _ _
  · simp only [join_lobby, if_neg h2, ← hsame, hd1]
    rw [mapGet_mapUpdate_eq, hd1]
    rfl

/-- Witness for C10: `"Alice "` and `"Alice"` are distinct raw strings with
the same cleaned identity, so the second join reconnects the first entry. -/
theorem join_lobby_reconnect_witness :
    ∃ d1, mapGet (join_lobby "Alice " "s1" emptyState).1.players
        (cleanName "Alice ") = some d1 ∧
      (join_lobby "Alice" "s2"
          (join_lobby "Alice " "s1" emptyState).1).1.players.map Prod.fst =
        (join_lobby "Alice " "s1" emptyState).1.players.map Prod.fst ∧
      mapGet (join_lobby "Alice" "s2"
          (join_lobby "Alice " "s1" emptyState).1).1.players
          (cleanName "Alice ") =
        some { d1 with socketId := some "s2", connected := true,
                       disconnectedAt := none } :=
  join_lobby_same_key_reconnects emptyState "Alice " "Alice" "s1" "s2"
    (by decide) (by decide) (by decide) (by decide)

/-- Inserting an entry into a list keeps the sublist of any fixed displayed
score intact: the inserted element lands in front of the block of its own
score (it is inserted into the already-sorted tail, which only ever
contains elements that came later in the original order). -/
theorem filter_score_orderedInsert (q : ℚ) (a : LBEntry) (l : List LBEntry) :
    (List.orderedInsert lbRel a l).filter (fun e => e.cumulativeScore = q) =
      if a.cumulativeScore = q then
        a :: l.filter (fun e => e.cumulativeScore = q)
      else l.filter (fun e => e.cumulativeScore = q) := by
  induction l with
  | nil =>
    by_cases ha : a.cumulativeScore = q <;>
      simp [List.orderedInsert, List.filter_cons, ha]
  | cons b l ih =>
    rw [List.orderedInsert]
    by_cases hab : lbRel a b
    · rw [if_pos hab]
      by_cases ha : a.cumulativeScore = q
      · rw [if_pos ha, List.filter_cons, if_pos (by simpa using ha)]
      · rw [if_neg ha, List.filter_cons, if_neg (by simpa using ha)]
    · rw [if_neg hab]
      have hb : a.cumulativeScore < b.cumulativeScore := not_le.mp hab
      by_cases ha : a.cumulativeScore = q
      · have hbq : b.cumulativeScore ≠ q := by
          rw [← ha]
          exact ne_of_gt hb
        rw [if_pos ha, List.filter_cons, if_neg (by simpa using hbq),
          List.filter_cons, if_neg (by simpa using hbq), ih, if_pos ha]
      · by_cases hbq : b.cumulativeScore = q
        · rw [if_neg ha, List.filter_cons, if_pos (by simpa using hbq),
            List.filter_cons, if_pos (by simpa using hbq), ih, if_neg ha]
        · rw [if_neg ha, List.filter_cons, if_neg (by simpa using hbq),
            List.filter_cons, if_neg (by simpa using hbq), ih, if_neg ha]

/-- A stable sort by displayed score leaves the relative order inside every
score class unchanged. -/
theorem filter_score_insertionSort (q : ℚ) (l : List LBEntry) :
    (List.insertionSort lbRel l).filter (fun e => e.cumulativeScore = q) =
      l.filter (fun e => e.cumulativeScore = q) := by
  induction l with
  | nil => rfl
  | cons a l ih =>
    rw [List.insertionSort, filter_score_orderedInsert, ih]
    by_cases ha : a.cumulativeScore = q
    · rw [if_pos ha, List.filter_cons, if_pos (by simpa using ha)]
    · rw [if_neg ha, List.filter_cons, if_neg (by simpa using ha)]

/-- **C9 counterexample**: the leaderboard is sorted by the score *rounded
to two decimals*.  In `tieState`, "b" has the strictly greater
`cumulativeScore` (1/250 > 1/1000), but both round to 0.00, so the stable
sort keeps insertion order and "b" appears after "a" — refuting the claim
that a strictly greater `cumulativeScore` always appears earlier. -/
theorem leaderboard_rounded_tie_cx :
    snapshotLeaderboard tieState = [⟨"a", 0, true⟩, ⟨"b", 0, true⟩] ∧
    (mapGet tieState.players "a").map (fun d => d.cumulativeScore) =
      some (1 / 1000) ∧
    (mapGet tieState.players "b").map (fun d => d.cumulativeScore) =
      some (1 / 250) ∧
    ((1 : ℚ) / 1000) < 1 / 250 := by
  refine ⟨?_, rfl, rfl, by norm_num⟩
  norm_num [snapshotLeaderboard, tieState, lbEntryOf, jsRound,
    List.insertionSort, List.orderedInsert, lbRel]

/-- **C9 amended**: the broadcast leaderboard contains one entry per known
player (online or not), sorted non-increasingly by the *rounded*
two-decimal score carried in the entries, with ties in the rounded score
kept in insertion order (every rounded-score class appears exactly in its
original relative order). -/
theorem leaderboard_sorted_stable (s : State) :
    (snapshotLeaderboard s).Perm (s.players.map lbEntryOf) ∧
    (snapshotLeaderboard s).Pairwise lbRel ∧
    (∀ q : ℚ, (snapshotLeaderboard s).filter (fun e => e.cumulativeScore = q) =
      (s.players.map lbEntryOf).filter (fun e => e.cumulativeScore = q)) :=
  ⟨List.perm_insertionSort lbRel _,
   List.sorted_insertionSort lbRel _,
   fun q => filter_score_insertionSort q _⟩

end SwordShield
